import Mathlib

/-!
Verification of the `_RunnerBase` experiment runner (mlrose).

The development shallowly embeds the runner's data-collection engine:

* Python dictionaries are modelled as association lists (`Dict`) together
  with `dinsert` (Python `d[k] = v`: replace in place, else append) and
  `dunion` (Python `d.update(e)` / `{**d, **e}`: fold the right operand's
  bindings into the left operand).
* Values logged by the runner (`PValue`) carry a display name
  (`get_short_name`), an optional diagnostic capability (`get_info__`,
  modelled by the `hasInfo` flag and the `info` function queried by the
  elapsed time), mirroring how `_save_state` consumes them.
* Real time cannot be embedded, so each callback invocation carries the
  elapsed time `t` it observes (the code computes it from `perf_counter`
  minus the run start time); the rest of `_save_state` is translated
  statement by statement, with the partial operations of the source
  (`min`/`max` of a possibly empty list, list indexing) returning `none`
  exactly where Python would raise.
-/

set_option maxHeartbeats 1000000

/-- A value handled by the runner: an algorithm argument or auxiliary
user-info value.  `shortName` is what `get_short_name` returns for it;
`hasInfo` models `hasattr(v, 'get_info__')` and `info` models
`v.get_info__(t)` (a dict of numeric diagnostic metrics, given as its
item list). -/
structure PValue where
  shortName : String
  hasInfo : Bool
  info : Nat → List (String × Int)

/-- A value stored in a record dictionary: numbers (iteration, fitness,
time, state, diagnostic metrics), display strings (short names), or raw
`PValue`s (the auxiliary user-info values are stored unconverted by
`_save_state`). -/
inductive RVal where
  | int (n : Int)
  | str (s : String)
  | pval (v : PValue)

/-- A Python dictionary with string keys, as an insertion-ordered
association list with unique keys maintained by `dinsert`. -/
abbrev Dict (α : Type) := List (String × α)

/-- Python `d[k]`: value of the first (in a well-formed dict, only)
binding of `k`. -/
def dget {α : Type} : Dict α → String → Option α
  | [], _ => none
  | (ka, v) :: d, k => if ka = k then some v else dget d k

/-- Python `d[k] = v`: overwrite the binding in place, else append. -/
def dinsert {α : Type} : Dict α → String → α → Dict α
  | [], k, v => [(k, v)]
  | (ka, va) :: d, k, v => if ka = k then (k, v) :: d else (ka, va) :: dinsert d k v

/-- Python `d.update(e)` / `{**d, **e}`: insert all of `e`'s bindings
into `d`, left to right. -/
def dunion {α : Type} (d e : Dict α) : Dict α :=
  e.foldl (fun a p => dinsert a p.1 p.2) d

/-- A Python dict literal / comprehension built from a list of pairs
(later pairs override earlier ones on key collision). -/
def pyDict {α : Type} (l : Dict α) : Dict α := dunion [] l

/-- `d.keys()`. -/
def keys {α : Type} (d : Dict α) : List String := d.map Prod.fst

theorem dget_dinsert_self {α : Type} (d : Dict α) (k : String) (v : α) :
    dget (dinsert d k v) k = some v := by
  induction d with
  | nil => simp [dinsert, dget]
  | cons p d ih =>
    by_cases h : p.1 = k
    · simp [dinsert, h, dget]
    · simp [dinsert, h, dget, ih]

theorem dget_dinsert_ne {α : Type} (d : Dict α) (k x : String) (v : α) (h : x ≠ k) :
    dget (dinsert d k v) x = dget d x := by
  induction d with
  | nil =>
    simp only [dinsert, dget]
    exact if_neg (Ne.symm h)
  | cons p d ih =>
    obtain ⟨ka, va⟩ := p
    by_cases hp : ka = k
    · subst hp
      simp only [dinsert, if_pos rfl, dget]
      rw [if_neg (Ne.symm h), if_neg (Ne.symm h)]
    · by_cases hx : ka = x
      · subst hx
        simp [dinsert, hp, dget]
      · simp [dinsert, hp, dget, hx, ih]

theorem mem_keys_dinsert {α : Type} (d : Dict α) (k x : String) (v : α) :
    x ∈ keys (dinsert d k v) ↔ x ∈ keys d ∨ x = k := by
  induction d with
  | nil => simp [dinsert, keys, eq_comm]
  | cons p d ih =>
    obtain ⟨ka, va⟩ := p
    by_cases hp : ka = k
    · subst hp
      simp [dinsert, keys]
      tauto
    · simp only [dinsert, if_neg hp, keys, List.map_cons, List.mem_cons] at ih ⊢
      rw [ih]
      tauto

theorem nodup_keys_dinsert {α : Type} (d : Dict α) (k : String) (v : α)
    (h : (keys d).Nodup) : (keys (dinsert d k v)).Nodup := by
  induction d with
  | nil => simp [dinsert, keys]
  | cons p d ih =>
    simp only [keys, List.map_cons, List.nodup_cons] at h
    by_cases hp : p.1 = k
    · subst hp
      simpa [dinsert, keys] using h
    · simp only [dinsert, if_neg hp, keys, List.map_cons, List.nodup_cons]
      refine ⟨fun hc => ?_, ih h.2⟩
      rcases (mem_keys_dinsert d k p.1 v).mp hc with h2 | h2
      · exact h.1 h2
      · exact hp h2

theorem dunion_nil {α : Type} (d : Dict α) : dunion d [] = d := rfl

theorem dunion_cons {α : Type} (d : Dict α) (p : String × α) (e : Dict α) :
    dunion d (p :: e) = dunion (dinsert d p.1 p.2) e := rfl

theorem dget_dunion_not_mem {α : Type} (e d : Dict α) (k : String)
    (h : k ∉ keys e) : dget (dunion d e) k = dget d k := by
  induction e generalizing d with
  | nil => rfl
  | cons p e ih =>
    simp only [keys, List.map_cons, List.mem_cons, not_or] at h
    rw [dunion_cons, ih _ (by simpa [keys] using h.2), dget_dinsert_ne _ _ _ _ h.1]

theorem mem_keys_dunion {α : Type} (e d : Dict α) (x : String) :
    x ∈ keys (dunion d e) ↔ x ∈ keys d ∨ x ∈ keys e := by
  induction e generalizing d with
  | nil => simp [dunion_nil, keys]
  | cons p e ih =>
    rw [dunion_cons, ih, mem_keys_dinsert]
    simp only [keys, List.map_cons, List.mem_cons]
    tauto

theorem nodup_keys_dunion {α : Type} (e d : Dict α) (h : (keys d).Nodup) :
    (keys (dunion d e)).Nodup := by
  induction e generalizing d with
  | nil => exact h
  | cons p e ih => exact dunion_cons d p e ▸ ih _ (nodup_keys_dinsert _ _ _ h)

theorem nodup_keys_pyDict {α : Type} (l : Dict α) : (keys (pyDict l)).Nodup :=
  nodup_keys_dunion l [] (by simp [keys])

theorem dget_dunion_nodup {α : Type} (e d : Dict α) (k : String) (v : α)
    (hnd : (keys e).Nodup) (h : dget e k = some v) :
    dget (dunion d e) k = some v := by
  induction e generalizing d with
  | nil => simp [dget] at h
  | cons p e ih =>
    simp only [keys, List.map_cons, List.nodup_cons] at hnd
    by_cases hp : p.1 = k
    · have hv : v = p.2 := by
        rw [dget, if_pos hp] at h
        exact (Option.some.inj h).symm
      subst hv
      subst hp
      rw [dunion_cons, dget_dunion_not_mem _ _ _ hnd.1, dget_dinsert_self]
    · rw [dget, if_neg hp] at h
      rw [dunion_cons]
      exact ih _ hnd.2 h

theorem dget_eq_none_iff {α : Type} (d : Dict α) (k : String) :
    dget d k = none ↔ k ∉ keys d := by
  induction d with
  | nil => simp [dget, keys]
  | cons p d ih =>
    obtain ⟨ka, va⟩ := p
    by_cases hp : ka = k
    · subst hp
      simp [dget, keys]
    · simp only [dget, if_neg hp, keys, List.map_cons, List.mem_cons, ih]
      constructor
      · intro h h2
        rcases h2 with h2 | h2
        · exact hp h2.symm
        · exact h h2
      · intro h h2
        exact h (Or.inr h2)

theorem dget_isSome_iff {α : Type} (d : Dict α) (k : String) :
    (dget d k).isSome = true ↔ k ∈ keys d := by
  rcases h : dget d k with _ | v
  · simpa using (dget_eq_none_iff d k).mp h
  · simp only [Option.isSome_some, true_iff]
    by_contra hc
    rw [(dget_eq_none_iff d k).mpr hc] at h
    exact Option.noConfusion h

theorem mem_keys_pyDict {α : Type} (l : Dict α) (x : String) :
    x ∈ keys (pyDict l) ↔ x ∈ keys l := by
  rw [pyDict, mem_keys_dunion]
  simp [keys]

theorem dget_dunion_isSome {α : Type} (e d : Dict α) (k : String)
    (hnd : (keys e).Nodup) (h : (dget e k).isSome = true) :
    dget (dunion d e) k = dget e k := by
  rcases hh : dget e k with _ | v
  · rw [hh] at h; exact absurd h (by simp)
  · exact dget_dunion_nodup e d k v hnd hh

/-! ## The recorder state and `_save_state`

`Recorder` collects the fields of `_RunnerBase` that the callback and the
per-run setup read or write.  `iteration_list` is the checkpoint set,
`parameter_description_dict` maps option names to display names,
`current_logged_algorithm_args` is the dict of currently logged algorithm
arguments, and the remaining fields are the accumulation buffers. -/

structure Recorder where
  iteration_list : List Nat
  generate_curves : Bool
  parameter_description_dict : List (String × String)
  current_logged_algorithm_args : List (String × PValue)
  raw_run_stats : List (Dict RVal)
  fitness_curves : List (Option (Dict RVal))
  zero_curve_stat : Option (Dict RVal)
  iteration_times : List Nat

/-- One invocation of the `state_fitness_callback`.  `t` is the elapsed
time since the run start observed by this invocation (the code computes
it from `perf_counter`); `curve` is the fitness sequence supplied by the
algorithm, when any. -/
structure CallbackInput where
  iteration : Nat
  state : Int
  fitness : Int
  user_data : List (String × PValue)
  done : Bool
  curve : Option (List Int)
  t : Nat

/-- `gd` in `_save_state`: translate an argument name to its display
name via `parameter_description_dict`, defaulting to the name itself. -/
def gdName (P : List (String × String)) (n : String) : String :=
  match dget P n with
  | some d => d
  | none => n

/-- `param_stats`: the currently logged algorithm arguments in display
form — display name mapped to `get_short_name` of the value. -/
def paramStats (P : List (String × String)) (A : List (String × PValue)) : Dict RVal :=
  pyDict (A.map (fun kv => (gdName P kv.1, RVal.str kv.2.shortName)))

/-- The auxiliary `user_data` pairs that survive the case-insensitive
filter against the parameter display names. -/
def filteredUserData (P : List (String × String)) (A : List (String × PValue))
    (ud : List (String × PValue)) : List (String × PValue) :=
  ud.filter (fun p => !(((paramStats P A).map (fun q => q.1.toLower)).contains p.1.toLower))

/-- `current_iteration_stats`: the filtered auxiliary data (raw values)
merged with `param_stats`, the latter written second as in the source. -/
def currentIterationStats (P : List (String × String)) (A : List (String × PValue))
    (ud : List (String × PValue)) : Dict RVal :=
  dunion (pyDict ((filteredUserData P A ud).map (fun p => (p.1, RVal.pval p.2)))) (paramStats P A)

/-- `additional_info`: the diagnostic metrics of every logged argument
value exposing `get_info__`, queried at elapsed time `t` and merged in
argument order. -/
def additionalInfo (A : List (String × PValue)) (t : Nat) : Dict RVal :=
  pyDict ((A.map (fun kv =>
    if kv.2.hasInfo then (kv.2.info t).map (fun q => (q.1, RVal.int q.2)) else [])).flatten)

/-- One `run_stat` row: the base fields keyed `Iteration`/`Fitness`/
`Time`/`State`, overlaid with `current_iteration_stats` and then
`additional_info` (`{**run_stat, **current_iteration_stats,
**additional_info}`). -/
def mkRunStat (key : Nat) (fitness state : Int) (t : Nat) (S I : Dict RVal) : Dict RVal :=
  dunion (dunion [("Iteration", RVal.int (key : Int)), ("Fitness", RVal.int fitness),
                  ("Time", RVal.int (t : Int)), ("State", RVal.int state)] S) I

/-- `_create_curve_stat`: base fields overlaid with the curve data. -/
def mkCurveStat (iter : Nat) (fitness : Int) (t : Nat) (cd : Dict RVal) : Dict RVal :=
  dunion [("Iteration", RVal.int (iter : Int)), ("Time", RVal.int (t : Int)),
          ("Fitness", RVal.int fitness)] cd

/-- The checkpoint fan-out of `_save_state` (lines choosing the
`iterations` list): for a positive iteration, the checkpoints that are
`≥` the iteration — all of them when `done`, otherwise the single
smallest (`none` models Python's `ValueError` on `min([])`).  For
iteration 0 the single key 0. -/
def fanOut (L : List Nat) (iteration : Nat) (done : Bool) : Option (List Nat) :=
  if 0 < iteration then
    let remaining := L.filter (fun i => decide (iteration ≤ i))
    if done then some remaining
    else
      match remaining.min? with
      | none => none
      | some m => some [m]
  else some [0]

/-- The guard of the curve-extension branch:
`generate_curves and curve is not None and (done or iteration ==
max(iteration_list))`, with `none` modelling Python's `ValueError` when
`max` is taken of an empty checkpoint list. -/
def curveCond (rec : Recorder) (inp : CallbackInput) : Option Bool :=
  if rec.generate_curves = true then
    match inp.curve with
    | none => some false
    | some _ =>
      if inp.done = true then some true
      else
        match rec.iteration_list.max? with
        | none => none
        | some m => some (decide (inp.iteration = m))
  else some false

/-- `_save_state`, translated statement by statement.  Returns the
updated recorder and the callback's boolean continuation signal, or
`none` where the source would raise (`min`/`max` of an empty list,
out-of-range `_iteration_times` index). -/
def save_state (rec : Recorder) (inp : CallbackInput) : Option (Recorder × Bool) :=
  let rec1 : Recorder := { rec with iteration_times := rec.iteration_times ++ [inp.t] }
  if 0 < inp.iteration ∧ inp.iteration ∉ rec.iteration_list ∧ inp.done = false then
    some (rec1, true)
  else
    let S := currentIterationStats rec.parameter_description_dict
      rec.current_logged_algorithm_args inp.user_data
    let I := additionalInfo rec.current_logged_algorithm_args inp.t
    match fanOut rec.iteration_list inp.iteration inp.done with
    | none => none
    | some iters =>
      let rec2 : Recorder := { rec1 with
        raw_run_stats := rec1.raw_run_stats ++
          iters.map (fun i => mkRunStat i inp.fitness inp.state inp.t S I) }
      let rec3 : Recorder :=
        if rec.generate_curves = true ∧ inp.iteration = 0 then
          { rec2 with zero_curve_stat := some (mkCurveStat 0 inp.fitness inp.t S) }
        else rec2
      match curveCond rec inp with
      | none => none
      | some false => some (rec3, !inp.done)
      | some true =>
        match ((List.range' 1 inp.iteration).zip (inp.curve.getD [])).mapM
            (fun p => (rec3.iteration_times[p.1]?).map
              (fun ti => mkCurveStat p.1 p.2 ti S)) with
        | none => none
        | some pts =>
          some ({ rec3 with
            fitness_curves := rec3.fitness_curves ++ rec3.zero_curve_stat :: pts.map some },
            !inp.done)

/-- Run a sequence of callback invocations, threading the recorder and
propagating failure. -/
def runCalls (rec : Recorder) : List CallbackInput → Option Recorder
  | [] => some rec
  | c :: cs =>
    match save_state rec c with
    | none => none
    | some (r, _) => runCalls r cs

/-! ## Orchestration: `_setup`, `run_experiment_`, `_run_one_experiment`,
`_invoke_algorithm` (their state effects), and the sweep expander. -/

/-- `_setup`: clears the sweep-wide buffers and the logged arguments
(the filesystem side effect is outside the model). -/
def setup (rec : Recorder) : Recorder :=
  { rec with raw_run_stats := [], fitness_curves := [], iteration_times := [],
             current_logged_algorithm_args := [] }

/-- The state effect of `_invoke_algorithm` before it calls the
algorithm: `self._current_logged_algorithm_args.update(total_args)` and
`self._iteration_times.clear()` (the run-start clock reset is the time
origin of the callback's `t` inputs). -/
def invokePrep (rec : Recorder) (total_args : List (String × PValue)) : Recorder :=
  { rec with
    current_logged_algorithm_args := dunion rec.current_logged_algorithm_args total_args,
    iteration_times := [] }

/-- The argument merge of `_run_one_experiment`:
`total_args.update(self._extra_args)` when the stored kwargs are
non-empty.  The result is the mapping passed on to the algorithm. -/
def runOneExperimentArgs (extra total : List (String × PValue)) : List (String × PValue) :=
  if 0 < extra.length then dunion total extra else total

/-- `itertools.product` over a list of candidate lists, first factor
outermost. -/
def cartProduct {α : Type} : List (List α) → List (List α)
  | [] => [[]]
  | l :: ls => l.flatMap (fun x => (cartProduct ls).map (fun ys => x :: ys))

/-- The expansion in `run_experiment_`: each option with a present
candidate sequence contributes the list of its `(name, value)` pairs,
and the combinations are the Cartesian product of those lists.  An
option is a `(name, (display name, candidates or absent))` entry. -/
def sweepValueSets (kwargs : List (String × String × Option (List PValue))) :
    List (List (String × PValue)) :=
  cartProduct (kwargs.filterMap (fun kv => kv.2.2.map (fun vs => vs.map (fun v => (kv.1, v)))))

/-- The recorder state at the start of one run, as `run_experiment_`
plus `_invoke_algorithm` leave it before the first callback fires for a
first combination: empty buffers, cleared time log. -/
def runRecorder (L : List Nat) (g : Bool) (P : List (String × String))
    (A : List (String × PValue)) : Recorder :=
  { iteration_list := L, generate_curves := g, parameter_description_dict := P,
    current_logged_algorithm_args := A, raw_run_stats := [], fitness_curves := [],
    zero_curve_stat := none, iteration_times := [] }

/-- The iteration-0 callback invocation of a run. -/
def zeroCall (ud : List (String × PValue)) (st fi : Nat → Int) (tf : Nat → Nat) :
    CallbackInput :=
  ⟨0, st 0, fi 0, ud, false, none, tf 0⟩

/-- The per-iteration (`done = false`) callback invocations at
iterations `a, a+1, …, a+k-1`. -/
def perIterCalls (a k : Nat) (ud : List (String × PValue)) (st fi : Nat → Int)
    (tf : Nat → Nat) : List CallbackInput :=
  (List.range' a k).map (fun j => ⟨j, st j, fi j, ud, false, none, tf j⟩)

/-- The terminal `done = true` invocation at iteration `n`, carrying the
fitness sequence the algorithm supplies (when curves were requested). -/
def doneCall (n : Nat) (ud : List (String × PValue)) (st fi : Nat → Int)
    (tf : Nat → Nat) (cv : Option (List Int)) : CallbackInput :=
  ⟨n, st n, fi n, ud, true, cv, tf n⟩

/-- A full run's callback sequence: iteration 0, per-iteration calls at
`1 … n-1`, and the terminal `done` call at iteration `n`. -/
def sweepRun (L : List Nat) (g : Bool) (P : List (String × String))
    (A : List (String × PValue)) (ud : List (String × PValue)) (st fi : Nat → Int)
    (tf : Nat → Nat) (n : Nat) (cv : Option (List Int)) : Option Recorder :=
  runCalls (runRecorder L g P A)
    (zeroCall ud st fi tf :: (perIterCalls 1 (n - 1) ud st fi tf ++ [doneCall n ud st fi tf cv]))


/-! ## Single-invocation behaviour of `_save_state` -/

theorem min?_filter_ge (L : List Nat) (j : Nat) (hj : j ∈ L) :
    (L.filter (fun i => decide (j ≤ i))).min? = some j := by
  rw [List.min?_eq_some_iff']
  constructor
  · rw [List.mem_filter]
    exact ⟨hj, by simp⟩
  · intro b hb
    rw [List.mem_filter] at hb
    simpa using hb.2

theorem fanOut_mem_notdone (L : List Nat) (j : Nat) (hj : j ∈ L) (h1 : 0 < j) :
    fanOut L j false = some [j] := by
  rw [fanOut, if_pos h1]
  simp only [Bool.false_eq_true, if_false, min?_filter_ge L j hj]

theorem fanOut_done (L : List Nat) (j : Nat) (h1 : 0 < j) :
    fanOut L j true = some (L.filter (fun i => decide (j ≤ i))) := by
  rw [fanOut, if_pos h1]
  rfl

theorem fanOut_zero (L : List Nat) (d : Bool) : fanOut L 0 d = some [0] := by
  rw [fanOut, if_neg (by omega)]

theorem curveCond_nocurve (rec : Recorder) (inp : CallbackInput)
    (h : inp.curve = none) : curveCond rec inp = some false := by
  rw [curveCond, h]
  split <;> rfl

theorem curveCond_done_curve (rec : Recorder) (inp : CallbackInput) (cs : List Int)
    (hg : rec.generate_curves = true) (hd : inp.done = true) (hc : inp.curve = some cs) :
    curveCond rec inp = some true := by
  rw [curveCond, if_pos hg, hc, if_pos hd]

/-- The filtering rule (lines 168–169): a positive non-checkpoint
iteration with `done = false` only logs the elapsed time and returns
`continue`. -/
theorem save_state_skip (rec : Recorder) (inp : CallbackInput)
    (h1 : 0 < inp.iteration) (h2 : inp.iteration ∉ rec.iteration_list)
    (h3 : inp.done = false) :
    save_state rec inp =
      some ({ rec with iteration_times := rec.iteration_times ++ [inp.t] }, true) := by
  simp only [save_state]
  rw [if_pos ⟨h1, h2, h3⟩]

/-- A `done = false` call at a positive checkpoint iteration (no curve
supplied): exactly one record is appended, keyed to the iteration itself
(the smallest checkpoint `≥` it). -/
theorem save_state_checkpoint (rec : Recorder) (inp : CallbackInput)
    (h1 : 0 < inp.iteration) (h2 : inp.iteration ∈ rec.iteration_list)
    (h3 : inp.done = false) (h4 : inp.curve = none) :
    save_state rec inp =
      some ({ rec with
        iteration_times := rec.iteration_times ++ [inp.t],
        raw_run_stats := rec.raw_run_stats ++
          [mkRunStat inp.iteration inp.fitness inp.state inp.t
            (currentIterationStats rec.parameter_description_dict
              rec.current_logged_algorithm_args inp.user_data)
            (additionalInfo rec.current_logged_algorithm_args inp.t)] }, true) := by
  simp only [save_state]
  rw [if_neg (by simp [h2])]
  rw [h3, fanOut_mem_notdone rec.iteration_list inp.iteration h2 h1]
  dsimp only
  rw [curveCond_nocurve rec inp h4]
  dsimp only
  rw [if_neg (by rintro ⟨-, h0⟩; omega)]
  rfl

/-- A terminal `done = true` call at a positive iteration with no curve
supplied: one record is appended per remaining checkpoint (every
checkpoint `≥` the iteration), all carrying this call's data. -/
theorem save_state_done_nocurve (rec : Recorder) (inp : CallbackInput)
    (h1 : 0 < inp.iteration) (h3 : inp.done = true) (h4 : inp.curve = none) :
    save_state rec inp =
      some ({ rec with
        iteration_times := rec.iteration_times ++ [inp.t],
        raw_run_stats := rec.raw_run_stats ++
          (rec.iteration_list.filter (fun i => decide (inp.iteration ≤ i))).map
            (fun i => mkRunStat i inp.fitness inp.state inp.t
              (currentIterationStats rec.parameter_description_dict
                rec.current_logged_algorithm_args inp.user_data)
              (additionalInfo rec.current_logged_algorithm_args inp.t)) }, false) := by
  simp only [save_state]
  rw [if_neg (by simp [h3])]
  rw [h3, fanOut_done rec.iteration_list inp.iteration h1]
  dsimp only
  rw [curveCond_nocurve rec inp h4]
  dsimp only
  rw [if_neg (by rintro ⟨-, h0⟩; omega)]
  rfl

/-- The iteration-0 call (no curve supplied): one record keyed 0 is
appended and, when curves are requested, the zero-iteration curve point
is cached. -/
theorem save_state_zero (rec : Recorder) (inp : CallbackInput)
    (h0 : inp.iteration = 0) (hd : inp.done = false) (h4 : inp.curve = none) :
    save_state rec inp =
      some ({ rec with
        iteration_times := rec.iteration_times ++ [inp.t],
        raw_run_stats := rec.raw_run_stats ++
          [mkRunStat 0 inp.fitness inp.state inp.t
            (currentIterationStats rec.parameter_description_dict
              rec.current_logged_algorithm_args inp.user_data)
            (additionalInfo rec.current_logged_algorithm_args inp.t)],
        zero_curve_stat := if rec.generate_curves = true
          then some (mkCurveStat 0 inp.fitness inp.t
            (currentIterationStats rec.parameter_description_dict
              rec.current_logged_algorithm_args inp.user_data))
          else rec.zero_curve_stat }, true) := by
  simp only [save_state]
  rw [h0, hd]
  rw [if_neg (by simp)]
  rw [fanOut_zero]
  dsimp only
  rw [curveCond_nocurve rec inp h4]
  dsimp only
  by_cases hg : rec.generate_curves = true
  · rw [if_pos ⟨hg, rfl⟩, if_pos hg]
    rfl
  · rw [if_neg (by simp [hg]), if_neg hg]
    rfl

theorem mapM_eq_some_map {α β : Type} (l : List α) (f : α → Option β) (g : α → β)
    (h : ∀ x ∈ l, f x = some (g x)) : l.mapM f = some (l.map g) := by
  induction l with
  | nil => rfl
  | cons a l ih =>
    rw [List.mapM_cons, h a (List.mem_cons_self a l),
      ih (fun x hx => h x (List.mem_cons_of_mem a hx))]
    rfl

/-- A terminal `done = true` call carrying the fitness sequence, with
curves requested: the remaining checkpoints receive this call's record,
and the whole curve — cached zero point first, then one point per
`zip`-ped (iteration, fitness) pair with the elapsed time looked up from
the per-iteration time log — is appended. -/
theorem save_state_done_curve (rec : Recorder) (inp : CallbackInput) (cs : List Int)
    (n : Nat) (tf : Nat → Nat)
    (h1 : inp.iteration = n) (hn : 0 < n) (h3 : inp.done = true) (h4 : inp.curve = some cs)
    (hg : rec.generate_curves = true)
    (hlook : ∀ i, 1 ≤ i → i ≤ n → (rec.iteration_times ++ [inp.t])[i]? = some (tf i)) :
    save_state rec inp =
      some ({ rec with
        iteration_times := rec.iteration_times ++ [inp.t],
        raw_run_stats := rec.raw_run_stats ++
          (rec.iteration_list.filter (fun i => decide (n ≤ i))).map
            (fun i => mkRunStat i inp.fitness inp.state inp.t
              (currentIterationStats rec.parameter_description_dict
                rec.current_logged_algorithm_args inp.user_data)
              (additionalInfo rec.current_logged_algorithm_args inp.t)),
        fitness_curves := rec.fitness_curves ++ rec.zero_curve_stat ::
          ((List.range' 1 n).zip cs).map
            (fun p => some (mkCurveStat p.1 p.2 (tf p.1)
              (currentIterationStats rec.parameter_description_dict
                rec.current_logged_algorithm_args inp.user_data))) }, false) := by
  simp only [save_state]
  rw [if_neg (by simp [h3])]
  rw [h1, h3, fanOut_done rec.iteration_list n hn]
  dsimp only
  rw [curveCond_done_curve rec inp cs hg h3 h4]
  dsimp only
  rw [if_neg (by rintro ⟨-, h0⟩; omega)]
  rw [h4]
  dsimp only [Option.getD_some]
  rw [mapM_eq_some_map _ _
    (fun p => mkCurveStat p.1 p.2 (tf p.1)
      (currentIterationStats rec.parameter_description_dict
        rec.current_logged_algorithm_args inp.user_data))
    (by
      intro p hp
      have hmem := (List.of_mem_zip hp).1
      rw [List.mem_range'_1] at hmem
      rw [hlook p.1 hmem.1 (by omega)]
      rfl)]
  dsimp only
  rw [List.map_map]
  rfl

/-- Step 1 of the callback contract: every successful invocation,
filtered or not, appends its elapsed time to the per-iteration time log
(and that is the only change to the log). -/
theorem save_state_times (rec : Recorder) (inp : CallbackInput) (r : Recorder) (b : Bool)
    (h : save_state rec inp = some (r, b)) :
    r.iteration_times = rec.iteration_times ++ [inp.t] := by
  simp only [save_state] at h
  split at h
  · cases h
    rfl
  · split at h
    · exact absurd h (by simp)
    · split at h
      · exact absurd h (by simp)
      · cases h
        split <;> rfl
      · split at h
        · exact absurd h (by simp)
        · cases h
          split <;> rfl

theorem runCalls_cons (rec : Recorder) (c : CallbackInput) (cs : List CallbackInput) :
    runCalls rec (c :: cs) =
      match save_state rec c with
      | none => none
      | some (r, _) => runCalls r cs := rfl

/-- Effect of the per-iteration (`done = false`, no curve supplied)
calls at iterations `a, …, a+k-1` with `1 ≤ a`: every call logs its
elapsed time, and exactly the calls whose iteration is a checkpoint
append one record each, keyed to their own iteration; nothing else in
the recorder changes. -/
theorem runCalls_perIter (L : List Nat) (A : List (String × PValue))
    (P : List (String × String)) (g : Bool) (ud : List (String × PValue))
    (st fi : Nat → Int) (tf : Nat → Nat) :
    ∀ (k a : Nat) (rec : Recorder), 1 ≤ a →
      rec.iteration_list = L → rec.current_logged_algorithm_args = A →
      rec.parameter_description_dict = P → rec.generate_curves = g →
      ∃ fin : Recorder, runCalls rec (perIterCalls a k ud st fi tf) = some fin ∧
        fin.iteration_list = L ∧ fin.current_logged_algorithm_args = A ∧
        fin.parameter_description_dict = P ∧ fin.generate_curves = g ∧
        fin.zero_curve_stat = rec.zero_curve_stat ∧
        fin.fitness_curves = rec.fitness_curves ∧
        fin.raw_run_stats = rec.raw_run_stats ++
          ((List.range' a k).filter (fun j => decide (j ∈ L))).map
            (fun j => mkRunStat j (fi j) (st j) (tf j)
              (currentIterationStats P A ud) (additionalInfo A (tf j))) ∧
        fin.iteration_times = rec.iteration_times ++ (List.range' a k).map tf := by
  intro k
  induction k with
  | zero =>
    intro a rec ha h1 h2 h3 h4
    exact ⟨rec, by simp [perIterCalls, runCalls], h1, h2, h3, h4, rfl, rfl,
      by simp [List.range'], by simp [List.range']⟩
  | succ k ih =>
    intro a rec ha h1 h2 h3 h4
    by_cases hmem : a ∈ L
    · have hs := save_state_checkpoint rec ⟨a, st a, fi a, ud, false, none, tf a⟩
        (by show 0 < a; omega) (by show a ∈ rec.iteration_list; rw [h1]; exact hmem) rfl rfl
      obtain ⟨fin, hrun, f1, f2, f3, f4, f5, f6, f7, f8⟩ :=
        ih (a + 1)
          ({ rec with
            iteration_times := rec.iteration_times ++ [tf a],
            raw_run_stats := rec.raw_run_stats ++
              [mkRunStat a (fi a) (st a) (tf a)
                (currentIterationStats rec.parameter_description_dict
                  rec.current_logged_algorithm_args ud)
                (additionalInfo rec.current_logged_algorithm_args (tf a))] })
          (by omega) h1 h2 h3 h4
      refine ⟨fin, ?_, f1, f2, f3, f4, f5, f6, ?_, ?_⟩
      · rw [show perIterCalls a (k + 1) ud st fi tf =
            (⟨a, st a, fi a, ud, false, none, tf a⟩ : CallbackInput) ::
              perIterCalls (a + 1) k ud st fi tf from rfl]
        rw [runCalls_cons, hs]
        exact hrun
      · rw [f7, h2, h3]
        rw [show List.range' a (k + 1) = a :: List.range' (a + 1) k from rfl]
        simp [List.filter_cons, hmem, List.append_assoc]
      · rw [f8]
        rw [show List.range' a (k + 1) = a :: List.range' (a + 1) k from rfl]
        simp [List.append_assoc]
    · have hs := save_state_skip rec ⟨a, st a, fi a, ud, false, none, tf a⟩
        (by show 0 < a; omega) (by show a ∉ rec.iteration_list; rw [h1]; exact hmem) rfl
      obtain ⟨fin, hrun, f1, f2, f3, f4, f5, f6, f7, f8⟩ :=
        ih (a + 1)
          ({ rec with iteration_times := rec.iteration_times ++ [tf a] })
          (by omega) h1 h2 h3 h4
      refine ⟨fin, ?_, f1, f2, f3, f4, f5, f6, ?_, ?_⟩
      · rw [show perIterCalls a (k + 1) ud st fi tf =
            (⟨a, st a, fi a, ud, false, none, tf a⟩ : CallbackInput) ::
              perIterCalls (a + 1) k ud st fi tf from rfl]
        rw [runCalls_cons, hs]
        exact hrun
      · rw [f7]
        rw [show List.range' a (k + 1) = a :: List.range' (a + 1) k from rfl]
        simp [List.filter_cons, hmem]
      · rw [f8]
        rw [show List.range' a (k + 1) = a :: List.range' (a + 1) k from rfl]
        simp [List.append_assoc]

/-! ## Record keys and run-level composition -/

/-- The checkpoint key a statistics/curve row is stored under: its
`Iteration` entry, when that entry is numeric. -/
def recIter (d : Dict RVal) : Option Int :=
  match dget d "Iteration" with
  | some (RVal.int n) => some n
  | _ => none

theorem recIter_mkRunStat (key : Nat) (f s : Int) (t : Nat) (S I : Dict RVal)
    (hS : "Iteration" ∉ keys S) (hI : "Iteration" ∉ keys I) :
    recIter (mkRunStat key f s t S I) = some (key : Int) := by
  rw [recIter, mkRunStat, dget_dunion_not_mem _ _ _ hI, dget_dunion_not_mem _ _ _ hS]
  rfl

theorem recIter_mkCurveStat (iter : Nat) (f : Int) (t : Nat) (S : Dict RVal)
    (hS : "Iteration" ∉ keys S) :
    recIter (mkCurveStat iter f t S) = some (iter : Int) := by
  rw [recIter, mkCurveStat, dget_dunion_not_mem _ _ _ hS]
  rfl

theorem dget_time_mkCurveStat (iter : Nat) (f : Int) (t : Nat) (S : Dict RVal)
    (hS : "Time" ∉ keys S) :
    dget (mkCurveStat iter f t S) "Time" = some (RVal.int (t : Int)) := by
  rw [mkCurveStat, dget_dunion_not_mem _ _ _ hS]
  rfl

theorem countP_map_keyed (l : List Nat) (c : Nat) (F : Nat → Dict RVal)
    (hnd : l.Nodup) (hF : ∀ j ∈ l, recIter (F j) = some (j : Int)) :
    (l.map F).countP (fun r => decide (recIter r = some (c : Int))) =
      if c ∈ l then 1 else 0 := by
  induction l with
  | nil => simp
  | cons j l ih =>
    have hnd2 := List.nodup_cons.mp hnd
    simp only [List.map_cons, List.countP_cons]
    rw [ih hnd2.2 (fun x hx => hF x (List.mem_cons_of_mem j hx))]
    by_cases hc : c = j
    · subst hc
      simp [hF c (List.mem_cons_self c l), hnd2.1]
    · have hji : ¬((j : Int) = (c : Int)) := by
        intro hh
        exact hc (by exact_mod_cast hh.symm)
      simp [hF j (List.mem_cons_self j l), hji, List.mem_cons, hc]

theorem runCalls_append (rec : Recorder) (l1 l2 : List CallbackInput) :
    runCalls rec (l1 ++ l2) =
      match runCalls rec l1 with
      | none => none
      | some r => runCalls r l2 := by
  induction l1 generalizing rec with
  | nil => rfl
  | cons c l1 ih =>
    rw [List.cons_append, runCalls_cons, runCalls_cons]
    cases h : save_state rec c with
    | none => rfl
    | some rb => exact ih rb.1

/-- Composite effect of a full run (iteration-0 call, per-iteration
calls at `1 … n-1`, terminal `done` call at `n`) without curve data: the
run succeeds and the statistics list is the zero record, then the
per-iteration checkpoint records (each keyed to its own iteration), then
the terminal fan-out records (one per checkpoint `≥ n`, keyed to that
checkpoint but carrying the iteration-`n` data). -/
theorem sweepRun_stats (L : List Nat) (g : Bool) (P : List (String × String))
    (A : List (String × PValue)) (ud : List (String × PValue))
    (st fi : Nat → Int) (tf : Nat → Nat) (n : Nat) (hn : 1 ≤ n) :
    ∃ fin : Recorder, sweepRun L g P A ud st fi tf n none = some fin ∧
      fin.raw_run_stats =
        mkRunStat 0 (fi 0) (st 0) (tf 0) (currentIterationStats P A ud)
            (additionalInfo A (tf 0)) ::
          (((List.range' 1 (n - 1)).filter (fun j => decide (j ∈ L))).map
            (fun j => mkRunStat j (fi j) (st j) (tf j)
              (currentIterationStats P A ud) (additionalInfo A (tf j))) ++
           (L.filter (fun i => decide (n ≤ i))).map
            (fun i => mkRunStat i (fi n) (st n) (tf n)
              (currentIterationStats P A ud) (additionalInfo A (tf n)))) ∧
      fin.iteration_times = tf 0 :: ((List.range' 1 (n - 1)).map tf ++ [tf n]) := by
  have hs0 : save_state (runRecorder L g P A) (zeroCall ud st fi tf) =
      some ({ iteration_list := L, generate_curves := g,
              parameter_description_dict := P, current_logged_algorithm_args := A,
              raw_run_stats := [mkRunStat 0 (fi 0) (st 0) (tf 0)
                (currentIterationStats P A ud) (additionalInfo A (tf 0))],
              fitness_curves := [],
              zero_curve_stat := if g = true
                then some (mkCurveStat 0 (fi 0) (tf 0) (currentIterationStats P A ud))
                else none,
              iteration_times := [tf 0] }, true) :=
    save_state_zero (runRecorder L g P A) (zeroCall ud st fi tf) rfl rfl rfl
  obtain ⟨mid, hmid, m1, m2, m3, m4, m5, m6, m7, m8⟩ :=
    runCalls_perIter L A P g ud st fi tf (n - 1) 1
      { iteration_list := L, generate_curves := g,
        parameter_description_dict := P, current_logged_algorithm_args := A,
        raw_run_stats := [mkRunStat 0 (fi 0) (st 0) (tf 0)
          (currentIterationStats P A ud) (additionalInfo A (tf 0))],
        fitness_curves := [],
        zero_curve_stat := if g = true
          then some (mkCurveStat 0 (fi 0) (tf 0) (currentIterationStats P A ud))
          else none,
        iteration_times := [tf 0] }
      le_rfl rfl rfl rfl rfl
  have hsd : save_state mid (doneCall n ud st fi tf none) =
      some ({ mid with
        iteration_times := mid.iteration_times ++ [tf n],
        raw_run_stats := mid.raw_run_stats ++
          (mid.iteration_list.filter (fun i => decide (n ≤ i))).map
            (fun i => mkRunStat i (fi n) (st n) (tf n)
              (currentIterationStats mid.parameter_description_dict
                mid.current_logged_algorithm_args ud)
              (additionalInfo mid.current_logged_algorithm_args (tf n))) }, false) :=
    save_state_done_nocurve mid (doneCall n ud st fi tf none)
      (by show 0 < n; omega) rfl rfl
  refine ⟨{ mid with
      iteration_times := mid.iteration_times ++ [tf n],
      raw_run_stats := mid.raw_run_stats ++
        (mid.iteration_list.filter (fun i => decide (n ≤ i))).map
          (fun i => mkRunStat i (fi n) (st n) (tf n)
            (currentIterationStats mid.parameter_description_dict
              mid.current_logged_algorithm_args ud)
            (additionalInfo mid.current_logged_algorithm_args (tf n))) }, ?_, ?_, ?_⟩
  · rw [sweepRun, runCalls_cons, hs0]
    dsimp only
    rw [runCalls_append, hmid]
    dsimp only
    rw [runCalls_cons, hsd]
    rfl
  · dsimp only
    rw [m7, m1, m2, m3]
    dsimp only
    simp [List.append_assoc]
  · dsimp only
    rw [m8]
    dsimp only
    simp

/-! ## Claim theorems -/

/-- C2: over a duplicate-free checkpoint set containing a bound for the
terminal iteration, a run whose callback sequence is the iteration-0
call, per-iteration calls below the terminal iteration `n`, and the
terminal `done = true` call at `n` (`1 ≤ n`), leaves exactly one
statistics record keyed to each checkpoint — never zero and never more
than one — no matter where in the checkpoint range the run stopped.
(The merged auxiliary/diagnostic keys are assumed not to shadow the
`Iteration` column.) -/
theorem C2_every_checkpoint_exactly_one_record
    (L : List Nat) (g : Bool) (P : List (String × String)) (A : List (String × PValue))
    (ud : List (String × PValue)) (st fi : Nat → Int) (tf : Nat → Nat) (n : Nat)
    (hnd : L.Nodup) (hn : 1 ≤ n) (hbound : ∃ m ∈ L, n ≤ m)
    (hS : "Iteration" ∉ keys (currentIterationStats P A ud))
    (hI : ∀ t, "Iteration" ∉ keys (additionalInfo A t)) :
    ∃ fin : Recorder, sweepRun L g P A ud st fi tf n none = some fin ∧
      ∀ c ∈ L, fin.raw_run_stats.countP
        (fun r => decide (recIter r = some (c : Int))) = 1 := by
  obtain ⟨fin, hrun, hstats, -⟩ := sweepRun_stats L g P A ud st fi tf n hn
  refine ⟨fin, hrun, ?_⟩
  intro c hc
  have hnd1 : ((List.range' 1 (n - 1)).filter (fun j => decide (j ∈ L))).Nodup :=
    (List.nodup_range' 1 (n - 1)).filter _
  have hnd2 : (L.filter (fun i => decide (n ≤ i))).Nodup := hnd.filter _
  have hF1 : ∀ j ∈ (List.range' 1 (n - 1)).filter (fun j => decide (j ∈ L)),
      recIter (mkRunStat j (fi j) (st j) (tf j)
        (currentIterationStats P A ud) (additionalInfo A (tf j))) = some (j : Int) :=
    fun j _ => recIter_mkRunStat j (fi j) (st j) (tf j) _ _ hS (hI (tf j))
  have hF2 : ∀ j ∈ L.filter (fun i => decide (n ≤ i)),
      recIter (mkRunStat j (fi n) (st n) (tf n)
        (currentIterationStats P A ud) (additionalInfo A (tf n))) = some (j : Int) :=
    fun j _ => recIter_mkRunStat j (fi n) (st n) (tf n) _ _ hS (hI (tf n))
  have e0 : (decide (recIter (mkRunStat 0 (fi 0) (st 0) (tf 0)
      (currentIterationStats P A ud) (additionalInfo A (tf 0))) =
        some (c : Int)) = true) ↔ c = 0 := by
    rw [recIter_mkRunStat 0 (fi 0) (st 0) (tf 0) _ _ hS (hI (tf 0))]
    simp [eq_comm]
  have hmid_mem : c ∈ (List.range' 1 (n - 1)).filter (fun j => decide (j ∈ L)) ↔
      1 ≤ c ∧ c < n := by
    rw [List.mem_filter, List.mem_range'_1]
    constructor
    · rintro ⟨h1, -⟩
      omega
    · intro h1
      exact ⟨by omega, by simpa using hc⟩
  have hdone_mem : c ∈ L.filter (fun i => decide (n ≤ i)) ↔ n ≤ c := by
    rw [List.mem_filter]
    constructor
    · rintro ⟨-, h2⟩
      simpa using h2
    · intro h2
      exact ⟨hc, by simpa using h2⟩
  rw [hstats]
  simp only [List.countP_cons, List.countP_append]
  rw [countP_map_keyed _ c _ hnd1 hF1, countP_map_keyed _ c _ hnd2 hF2]
  rw [if_congr e0 rfl rfl, if_congr hmid_mem rfl rfl, if_congr hdone_mem rfl rfl]
  split_ifs <;> omega

/-- C3: when a positive-iteration call passes the filter with
`done = false`, the single record appended is keyed to the smallest
checkpoint `≥` the iteration (which is the iteration itself); with
`done = true` the same merged record is appended once per checkpoint `≥`
the iteration.  In the spec's scenario — checkpoints `[5, 10]`,
per-iteration calls `1 … 6`, `done` at iteration 7 — checkpoint 5 keeps
the record captured at iteration 5 and checkpoint 10 receives the
iteration-7 merged record. -/
theorem C3_done_fanout_remaining_checkpoints
    (g : Bool) (P : List (String × String)) (A : List (String × PValue))
    (ud : List (String × PValue)) (st fi : Nat → Int) (tf : Nat → Nat) :
    (∀ (rec : Recorder) (inp : CallbackInput),
      0 < inp.iteration → inp.iteration ∈ rec.iteration_list → inp.done = false →
      inp.curve = none →
      (rec.iteration_list.filter (fun i => decide (inp.iteration ≤ i))).min? =
          some inp.iteration ∧
      save_state rec inp = some ({ rec with
        iteration_times := rec.iteration_times ++ [inp.t],
        raw_run_stats := rec.raw_run_stats ++
          [mkRunStat inp.iteration inp.fitness inp.state inp.t
            (currentIterationStats rec.parameter_description_dict
              rec.current_logged_algorithm_args inp.user_data)
            (additionalInfo rec.current_logged_algorithm_args inp.t)] }, true)) ∧
    (∀ (rec : Recorder) (inp : CallbackInput),
      0 < inp.iteration → inp.done = true → inp.curve = none →
      save_state rec inp = some ({ rec with
        iteration_times := rec.iteration_times ++ [inp.t],
        raw_run_stats := rec.raw_run_stats ++
          (rec.iteration_list.filter (fun i => decide (inp.iteration ≤ i))).map
            (fun i => mkRunStat i inp.fitness inp.state inp.t
              (currentIterationStats rec.parameter_description_dict
                rec.current_logged_algorithm_args inp.user_data)
              (additionalInfo rec.current_logged_algorithm_args inp.t)) }, false)) ∧
    (∃ fin : Recorder, sweepRun [5, 10] g P A ud st fi tf 7 none = some fin ∧
      fin.raw_run_stats =
        [mkRunStat 0 (fi 0) (st 0) (tf 0) (currentIterationStats P A ud)
          (additionalInfo A (tf 0)),
         mkRunStat 5 (fi 5) (st 5) (tf 5) (currentIterationStats P A ud)
          (additionalInfo A (tf 5)),
         mkRunStat 10 (fi 7) (st 7) (tf 7) (currentIterationStats P A ud)
          (additionalInfo A (tf 7))]) := by
  refine ⟨?_, ?_, ?_⟩
  · intro rec inp h1 h2 h3 h4
    exact ⟨min?_filter_ge _ _ h2, save_state_checkpoint rec inp h1 h2 h3 h4⟩
  · intro rec inp h1 h3 h4
    exact save_state_done_nocurve rec inp h1 h3 h4
  · obtain ⟨fin, hrun, hstats, -⟩ :=
      sweepRun_stats [5, 10] g P A ud st fi tf 7 (by omega)
    refine ⟨fin, hrun, ?_⟩
    rw [hstats]
    rw [show (List.range' 1 (7 - 1)).filter
        (fun j => decide (j ∈ ([5, 10] : List Nat))) = [5] from by decide]
    rw [show ([5, 10] : List Nat).filter (fun i => decide (7 ≤ i)) = [10] from by decide]
    rfl

/-- C6: a positive-iteration, non-checkpoint, `done = false` invocation
appends no statistics record and no curve point, leaves the cached
zero-iteration record (and everything else) unchanged, appends only its
elapsed time to the per-iteration time log, and returns `true`
(continue). -/
theorem C6_noncheckpoint_call_only_logs_time (rec : Recorder) (inp : CallbackInput)
    (h1 : 0 < inp.iteration) (h2 : inp.iteration ∉ rec.iteration_list)
    (h3 : inp.done = false) :
    save_state rec inp =
      some ({ rec with iteration_times := rec.iteration_times ++ [inp.t] }, true) :=
  save_state_skip rec inp h1 h2 h3

/-- C10: for a `done = false` invocation that does not take the
filtering early return, the fan-out step cannot fail — either the
iteration is 0 (no `min` is taken) or the iteration is itself a member
of the checkpoint set, so the remaining-checkpoint list whose minimum is
taken is non-empty. -/
theorem C10_notdone_min_never_empty (rec : Recorder) (inp : CallbackInput)
    (hdone : inp.done = false)
    (hpass : ¬(0 < inp.iteration ∧ inp.iteration ∉ rec.iteration_list ∧
      inp.done = false)) :
    (fanOut rec.iteration_list inp.iteration inp.done).isSome = true := by
  by_cases h0 : 0 < inp.iteration
  · have hmem : inp.iteration ∈ rec.iteration_list := by
      by_contra hc
      exact hpass ⟨h0, hc, hdone⟩
    rw [hdone, fanOut_mem_notdone _ _ hmem h0]
    rfl
  · rw [show inp.iteration = 0 from by omega, fanOut_zero]
    rfl

/-- C4: a run with curves requested in which the algorithm supplies `n`
fitness values (terminal call at iteration `n` with the fitness
sequence) appends exactly `n + 1` curve points: the cached iteration-0
point followed by one point per supplied fitness value, with iteration
indices exactly `0, 1, …, n` in strictly increasing order. -/
theorem C4_curve_has_n_plus_one_increasing_rows
    (L : List Nat) (P : List (String × String)) (A : List (String × PValue))
    (ud : List (String × PValue)) (st fi : Nat → Int) (tf : Nat → Nat)
    (n : Nat) (cs : List Int)
    (hn : 1 ≤ n) (hcs : cs.length = n)
    (hS : "Iteration" ∉ keys (currentIterationStats P A ud)) :
    ∃ fin : Recorder, sweepRun L true P A ud st fi tf n (some cs) = some fin ∧
      fin.fitness_curves =
        some (mkCurveStat 0 (fi 0) (tf 0) (currentIterationStats P A ud)) ::
          ((List.range' 1 n).zip cs).map
            (fun p => some (mkCurveStat p.1 p.2 (tf p.1)
              (currentIterationStats P A ud))) ∧
      fin.fitness_curves.length = n + 1 ∧
      fin.fitness_curves.map (fun o => o.bind recIter) =
        (List.range (n + 1)).map (fun (i : Nat) => some ((i : Int))) := by
  have hs0 : save_state (runRecorder L true P A) (zeroCall ud st fi tf) =
      some ({ iteration_list := L, generate_curves := true,
              parameter_description_dict := P, current_logged_algorithm_args := A,
              raw_run_stats := [mkRunStat 0 (fi 0) (st 0) (tf 0)
                (currentIterationStats P A ud) (additionalInfo A (tf 0))],
              fitness_curves := [],
              zero_curve_stat :=
                some (mkCurveStat 0 (fi 0) (tf 0) (currentIterationStats P A ud)),
              iteration_times := [tf 0] }, true) :=
    save_state_zero (runRecorder L true P A) (zeroCall ud st fi tf) rfl rfl rfl
  obtain ⟨mid, hmid, m1, m2, m3, m4, m5, m6, m7, m8⟩ :=
    runCalls_perIter L A P true ud st fi tf (n - 1) 1
      { iteration_list := L, generate_curves := true,
        parameter_description_dict := P, current_logged_algorithm_args := A,
        raw_run_stats := [mkRunStat 0 (fi 0) (st 0) (tf 0)
          (currentIterationStats P A ud) (additionalInfo A (tf 0))],
        fitness_curves := [],
        zero_curve_stat :=
          some (mkCurveStat 0 (fi 0) (tf 0) (currentIterationStats P A ud)),
        iteration_times := [tf 0] }
      le_rfl rfl rfl rfl rfl
  have hr1 : List.range' 1 n = List.range' 1 (n - 1) ++ [n] := by
    conv_lhs => rw [show n = n - 1 + 1 from by omega]
    rw [List.range'_1_concat]
    have h1n : 1 + (n - 1) = n := by omega
    rw [h1n]
  have htl : mid.iteration_times ++ [tf n] = (List.range' 0 (n + 1)).map tf := by
    rw [m8]
    dsimp only
    rw [show List.range' 0 (n + 1) = 0 :: List.range' 1 n from rfl, hr1]
    simp
  have hlook : ∀ i, 1 ≤ i → i ≤ n →
      (mid.iteration_times ++ [tf n])[i]? = some (tf i) := by
    intro i hi1 hi2
    rw [htl, List.getElem?_map, List.getElem?_range' 0 1 (by omega)]
    simp
  have hsd : save_state mid (doneCall n ud st fi tf (some cs)) =
      some ({ mid with
        iteration_times := mid.iteration_times ++ [tf n],
        raw_run_stats := mid.raw_run_stats ++
          (mid.iteration_list.filter (fun i => decide (n ≤ i))).map
            (fun i => mkRunStat i (fi n) (st n) (tf n)
              (currentIterationStats mid.parameter_description_dict
                mid.current_logged_algorithm_args ud)
              (additionalInfo mid.current_logged_algorithm_args (tf n))),
        fitness_curves := mid.fitness_curves ++ mid.zero_curve_stat ::
          ((List.range' 1 n).zip cs).map
            (fun p => some (mkCurveStat p.1 p.2 (tf p.1)
              (currentIterationStats mid.parameter_description_dict
                mid.current_logged_algorithm_args ud))) }, false) :=
    save_state_done_curve mid (doneCall n ud st fi tf (some cs)) cs n tf
      rfl (by omega) rfl rfl m4 hlook
  have hfin : sweepRun L true P A ud st fi tf n (some cs) = some { mid with
      iteration_times := mid.iteration_times ++ [tf n],
      raw_run_stats := mid.raw_run_stats ++
        (mid.iteration_list.filter (fun i => decide (n ≤ i))).map
          (fun i => mkRunStat i (fi n) (st n) (tf n)
            (currentIterationStats mid.parameter_description_dict
              mid.current_logged_algorithm_args ud)
            (additionalInfo mid.current_logged_algorithm_args (tf n))),
      fitness_curves := mid.fitness_curves ++ mid.zero_curve_stat ::
        ((List.range' 1 n).zip cs).map
          (fun p => some (mkCurveStat p.1 p.2 (tf p.1)
            (currentIterationStats mid.parameter_description_dict
              mid.current_logged_algorithm_args ud))) } := by
    rw [sweepRun, runCalls_cons, hs0]
    dsimp only
    rw [runCalls_append, hmid]
    dsimp only
    rw [runCalls_cons, hsd]
    rfl
  have hc1 : ({ mid with
      iteration_times := mid.iteration_times ++ [tf n],
      raw_run_stats := mid.raw_run_stats ++
        (mid.iteration_list.filter (fun i => decide (n ≤ i))).map
          (fun i => mkRunStat i (fi n) (st n) (tf n)
            (currentIterationStats mid.parameter_description_dict
              mid.current_logged_algorithm_args ud)
            (additionalInfo mid.current_logged_algorithm_args (tf n))),
      fitness_curves := mid.fitness_curves ++ mid.zero_curve_stat ::
        ((List.range' 1 n).zip cs).map
          (fun p => some (mkCurveStat p.1 p.2 (tf p.1)
            (currentIterationStats mid.parameter_description_dict
              mid.current_logged_algorithm_args ud))) } : Recorder).fitness_curves =
      some (mkCurveStat 0 (fi 0) (tf 0) (currentIterationStats P A ud)) ::
        ((List.range' 1 n).zip cs).map
          (fun p => some (mkCurveStat p.1 p.2 (tf p.1)
            (currentIterationStats P A ud))) := by
    dsimp only
    rw [m5, m6, m2, m3]
    rfl
  refine ⟨_, hfin, hc1, ?_, ?_⟩
  · rw [hc1]
    simp [List.length_zip, List.length_range', hcs]
  · rw [hc1]
    rw [show List.range (n + 1) = 0 :: List.range' 1 n from by
      rw [List.range_eq_range']
      rfl]
    simp only [List.map_cons, Option.some_bind]
    rw [recIter_mkCurveStat 0 (fi 0) (tf 0) _ hS]
    rw [List.map_map]
    rw [List.map_congr_left (fun p hp => by
      simp only [Function.comp_apply, Option.some_bind]
      exact recIter_mkCurveStat p.1 p.2 (tf p.1) _ hS)]
    rw [show ((List.range' 1 n).zip cs).map (fun p => some ((p.1 : Nat) : Int)) =
        (((List.range' 1 n).zip cs).map Prod.fst).map (fun (i : Nat) => some ((i : Int))) from by
      rw [List.map_map]
      rfl]
    rw [List.map_fst_zip _ _ (by rw [List.length_range']; omega)]

/-- C8: every callback invocation unconditionally appends its elapsed
time to the per-iteration time log, and the log is positionally keyed by
iteration number, so each appended curve point for iteration `i` carries
the elapsed time recorded by the per-iteration invocation numbered `i` —
also in a sequence whose terminal `done = true` call repeats the already
reported iteration `n` with its own later time `tN`, which is ignored by
the lookup. -/
theorem C8_curve_times_from_per_iteration_log
    (L : List Nat) (P : List (String × String)) (A : List (String × PValue))
    (ud : List (String × PValue)) (st fi : Nat → Int) (tf : Nat → Nat)
    (stN fiN : Int) (tN : Nat) (n : Nat) (cs : List Int)
    (hn : 1 ≤ n) (hcs : cs.length = n)
    (hT : "Time" ∉ keys (currentIterationStats P A ud)) :
    (∀ (rec r : Recorder) (inp : CallbackInput) (b : Bool),
      save_state rec inp = some (r, b) →
      r.iteration_times = rec.iteration_times ++ [inp.t]) ∧
    (∃ fin : Recorder,
      runCalls (runRecorder L true P A)
        (zeroCall ud st fi tf :: (perIterCalls 1 n ud st fi tf ++
          [⟨n, stN, fiN, ud, true, some cs, tN⟩])) = some fin ∧
      fin.fitness_curves.map (fun o => o.bind (fun d => dget d "Time")) =
        (List.range (n + 1)).map (fun (i : Nat) => some (RVal.int ((tf i : Int)))) ∧
      fin.iteration_times = (List.range' 0 (n + 1)).map tf ++ [tN]) := by
  refine ⟨fun rec r inp b h => save_state_times rec inp r b h, ?_⟩
  have hs0 : save_state (runRecorder L true P A) (zeroCall ud st fi tf) =
      some ({ iteration_list := L, generate_curves := true,
              parameter_description_dict := P, current_logged_algorithm_args := A,
              raw_run_stats := [mkRunStat 0 (fi 0) (st 0) (tf 0)
                (currentIterationStats P A ud) (additionalInfo A (tf 0))],
              fitness_curves := [],
              zero_curve_stat :=
                some (mkCurveStat 0 (fi 0) (tf 0) (currentIterationStats P A ud)),
              iteration_times := [tf 0] }, true) :=
    save_state_zero (runRecorder L true P A) (zeroCall ud st fi tf) rfl rfl rfl
  obtain ⟨mid, hmid, m1, m2, m3, m4, m5, m6, m7, m8⟩ :=
    runCalls_perIter L A P true ud st fi tf n 1
      { iteration_list := L, generate_curves := true,
        parameter_description_dict := P, current_logged_algorithm_args := A,
        raw_run_stats := [mkRunStat 0 (fi 0) (st 0) (tf 0)
          (currentIterationStats P A ud) (additionalInfo A (tf 0))],
        fitness_curves := [],
        zero_curve_stat :=
          some (mkCurveStat 0 (fi 0) (tf 0) (currentIterationStats P A ud)),
        iteration_times := [tf 0] }
      le_rfl rfl rfl rfl rfl
  have hmt : mid.iteration_times = (List.range' 0 (n + 1)).map tf := by
    rw [m8]
    dsimp only
    rw [show List.range' 0 (n + 1) = 0 :: List.range' 1 n from rfl]
    simp
  have hlook : ∀ i, 1 ≤ i → i ≤ n →
      (mid.iteration_times ++ [tN])[i]? = some (tf i) := by
    intro i hi1 hi2
    rw [hmt, List.getElem?_append_left (by rw [List.length_map, List.length_range']; omega),
      List.getElem?_map, List.getElem?_range' 0 1 (by omega)]
    simp
  have hsd : save_state mid (⟨n, stN, fiN, ud, true, some cs, tN⟩ : CallbackInput) =
      some ({ mid with
        iteration_times := mid.iteration_times ++ [tN],
        raw_run_stats := mid.raw_run_stats ++
          (mid.iteration_list.filter (fun i => decide (n ≤ i))).map
            (fun i => mkRunStat i fiN stN tN
              (currentIterationStats mid.parameter_description_dict
                mid.current_logged_algorithm_args ud)
              (additionalInfo mid.current_logged_algorithm_args tN)),
        fitness_curves := mid.fitness_curves ++ mid.zero_curve_stat ::
          ((List.range' 1 n).zip cs).map
            (fun p => some (mkCurveStat p.1 p.2 (tf p.1)
              (currentIterationStats mid.parameter_description_dict
                mid.current_logged_algorithm_args ud))) }, false) :=
    save_state_done_curve mid (⟨n, stN, fiN, ud, true, some cs, tN⟩ : CallbackInput)
      cs n tf rfl (by omega) rfl rfl m4 hlook
  have hfin : runCalls (runRecorder L true P A)
      (zeroCall ud st fi tf :: (perIterCalls 1 n ud st fi tf ++
        [⟨n, stN, fiN, ud, true, some cs, tN⟩])) = some { mid with
      iteration_times := mid.iteration_times ++ [tN],
      raw_run_stats := mid.raw_run_stats ++
        (mid.iteration_list.filter (fun i => decide (n ≤ i))).map
          (fun i => mkRunStat i fiN stN tN
            (currentIterationStats mid.parameter_description_dict
              mid.current_logged_algorithm_args ud)
            (additionalInfo mid.current_logged_algorithm_args tN)),
      fitness_curves := mid.fitness_curves ++ mid.zero_curve_stat ::
        ((List.range' 1 n).zip cs).map
          (fun p => some (mkCurveStat p.1 p.2 (tf p.1)
            (currentIterationStats mid.parameter_description_dict
              mid.current_logged_algorithm_args ud))) } := by
    rw [runCalls_cons, hs0]
    dsimp only
    rw [runCalls_append, hmid]
    dsimp only
    rw [runCalls_cons, hsd]
    rfl
  refine ⟨_, hfin, ?_, ?_⟩
  · dsimp only
    rw [m5, m6, m2, m3]
    rw [show ([] : List (Option (Dict RVal))) ++
        some (mkCurveStat 0 (fi 0) (tf 0) (currentIterationStats P A ud)) ::
          ((List.range' 1 n).zip cs).map
            (fun p => some (mkCurveStat p.1 p.2 (tf p.1)
              (currentIterationStats P A ud))) =
        some (mkCurveStat 0 (fi 0) (tf 0) (currentIterationStats P A ud)) ::
          ((List.range' 1 n).zip cs).map
            (fun p => some (mkCurveStat p.1 p.2 (tf p.1)
              (currentIterationStats P A ud))) from rfl]
    rw [show List.range (n + 1) = 0 :: List.range' 1 n from by
      rw [List.range_eq_range']
      rfl]
    simp only [List.map_cons, Option.some_bind]
    rw [dget_time_mkCurveStat 0 (fi 0) (tf 0) _ hT]
    rw [List.map_map]
    rw [List.map_congr_left (fun p hp => by
      simp only [Function.comp_apply, Option.some_bind]
      exact dget_time_mkCurveStat p.1 p.2 (tf p.1) _ hT)]
    rw [show ((List.range' 1 n).zip cs).map
          (fun p => some (RVal.int ((tf p.1 : Int)))) =
        (((List.range' 1 n).zip cs).map Prod.fst).map
          (fun (i : Nat) => some (RVal.int ((tf i : Int)))) from by
      rw [List.map_map]
      rfl]
    rw [List.map_fst_zip _ _ (by rw [List.length_range']; omega)]
  · dsimp only
    rw [hmt]

/-- C5: merge precedence of the display record.  (1) The record content
built by the source — filtered auxiliary data written first, parameter
display values second — coincides pointwise with the spec's merge order,
parameter values first overlaid by the filtered auxiliary data, because
the case-insensitive filter makes the two key sets disjoint.  (2) An
auxiliary pair whose name case-insensitively collides with a parameter
display name contributes nothing: at that name the record holds exactly
the parameter value.  (3) Diagnostic metrics are merged last and
override every other field of the run record. -/
theorem C5_display_record_merge_precedence (P : List (String × String))
    (A : List (String × PValue)) (ud : List (String × PValue)) (t : Nat) :
    (∀ x : String, dget (currentIterationStats P A ud) x =
      dget (dunion (paramStats P A)
        (pyDict ((filteredUserData P A ud).map (fun p => (p.1, RVal.pval p.2))))) x) ∧
    (∀ p ∈ ud,
      (((paramStats P A).map (fun q => q.1.toLower)).contains p.1.toLower) = true →
      dget (currentIterationStats P A ud) p.1 = dget (paramStats P A) p.1) ∧
    (∀ (x : String) (v : RVal), dget (additionalInfo A t) x = some v →
      ∀ (key : Nat) (f s : Int) (tt : Nat),
        dget (mkRunStat key f s tt (currentIterationStats P A ud)
          (additionalInfo A t)) x = some v) := by
  have knodPS : (keys (paramStats P A)).Nodup := nodup_keys_pyDict _
  have knodFU : (keys (pyDict ((filteredUserData P A ud).map
      (fun p => (p.1, RVal.pval p.2))))).Nodup := nodup_keys_pyDict _
  have hFUkeys : ∀ x, x ∈ keys (pyDict ((filteredUserData P A ud).map
      (fun p => (p.1, RVal.pval p.2)))) →
      ∃ q ∈ ud, q.1 = x ∧
        (((paramStats P A).map (fun w => w.1.toLower)).contains x.toLower) = false := by
    intro x hx
    rw [mem_keys_pyDict] at hx
    simp only [keys, List.map_map, List.mem_map, Function.comp_apply] at hx
    obtain ⟨q, hq, hqx⟩ := hx
    rw [filteredUserData, List.mem_filter] at hq
    refine ⟨q, hq.1, hqx, ?_⟩
    have hq2 := hq.2
    rw [hqx] at hq2
    simpa using hq2
  have hdisj : ∀ x, x ∈ keys (pyDict ((filteredUserData P A ud).map
      (fun p => (p.1, RVal.pval p.2)))) → x ∉ keys (paramStats P A) := by
    intro x hx hPS
    obtain ⟨q, -, -, hcontains⟩ := hFUkeys x hx
    have : x.toLower ∈ (paramStats P A).map (fun w => w.1.toLower) := by
      simp only [keys] at hPS
      obtain ⟨w, hw, hwx⟩ := List.mem_map.mp hPS
      exact List.mem_map.mpr ⟨w, hw, by rw [hwx]⟩
    rw [← List.elem_iff] at this
    rw [show ((paramStats P A).map (fun w => w.1.toLower)).contains x.toLower =
      List.elem x.toLower ((paramStats P A).map (fun w => w.1.toLower)) from rfl] at hcontains
    rw [this] at hcontains
    exact Bool.noConfusion hcontains
  refine ⟨?_, ?_, ?_⟩
  · intro x
    rcases hx : dget (paramStats P A) x with _ | v
    · have hxPS : x ∉ keys (paramStats P A) := (dget_eq_none_iff _ _).mp hx
      rw [currentIterationStats, dget_dunion_not_mem _ _ _ hxPS]
      rcases hFU : dget (pyDict ((filteredUserData P A ud).map
          (fun p => (p.1, RVal.pval p.2)))) x with _ | w
      · rw [hFU, dget_dunion_not_mem _ _ _ ((dget_eq_none_iff _ _).mp hFU), hx]
      · rw [hFU, dget_dunion_nodup _ _ _ _ knodFU hFU]
    · rw [currentIterationStats, dget_dunion_nodup _ _ _ _ knodPS hx]
      have hxPS : x ∈ keys (paramStats P A) := by
        rw [← dget_isSome_iff, hx]
        rfl
      have hxFU : x ∉ keys (pyDict ((filteredUserData P A ud).map
          (fun p => (p.1, RVal.pval p.2)))) := fun hc => hdisj x hc hxPS
      rw [dget_dunion_not_mem _ _ _ hxFU, hx]
  · intro p hp hcont
    have hpFU : p.1 ∉ keys (pyDict ((filteredUserData P A ud).map
        (fun q => (q.1, RVal.pval q.2)))) := by
      intro hc
      obtain ⟨q, -, -, hcontains⟩ := hFUkeys p.1 hc
      rw [hcont] at hcontains
      exact Bool.noConfusion hcontains
    rcases hx : dget (paramStats P A) p.1 with _ | v
    · rw [currentIterationStats,
        dget_dunion_not_mem _ _ _ ((dget_eq_none_iff _ _).mp hx),
        (dget_eq_none_iff _ _).mpr hpFU]
    · rw [currentIterationStats, dget_dunion_nodup _ _ _ _ knodPS hx]
  · intro x v hx key f s tt
    exact dget_dunion_nodup _ _ _ _ (nodup_keys_pyDict _) hx

theorem length_flatMap_mapcons {α : Type} (l : List α) (acc : List (List α)) :
    (l.flatMap (fun x => acc.map (fun ys => x :: ys))).length =
      l.length * acc.length := by
  induction l with
  | nil => simp
  | cons a l ih =>
    rw [List.flatMap_cons, List.length_append, List.length_map, ih, List.length_cons]
    ring

theorem length_cartProduct {α : Type} (ls : List (List α)) :
    (cartProduct ls).length = (ls.map List.length).prod := by
  induction ls with
  | nil => rfl
  | cons l ls ih =>
    simp only [cartProduct, List.map_cons, List.prod_cons]
    rw [length_flatMap_mapcons, ih]

theorem filterMap_eq_nil_of_none {α β : Type} (f : α → Option β) :
    ∀ l : List α, (∀ x ∈ l, f x = none) → l.filterMap f = [] := by
  intro l
  induction l with
  | nil => intro _; rfl
  | cons a l ih =>
    intro h
    rw [List.filterMap_cons, h a (List.mem_cons_self a l)]
    exact ih (fun x hx => h x (List.mem_cons_of_mem a hx))

theorem map_length_sweepValues (kwargs : List (String × String × Option (List PValue))) :
    ((kwargs.filterMap (fun kv => kv.2.2.map (fun vs => vs.map (fun v => (kv.1, v))))).map
        List.length) =
      ((kwargs.filterMap (fun kv => kv.2.2)).map List.length) := by
  induction kwargs with
  | nil => rfl
  | cons kv kwargs ih =>
    rcases h : kv.2.2 with _ | vs
    · simp only [List.filterMap_cons, h]
      exact ih
    · simp only [List.filterMap_cons, h, Option.map_some']
      rw [List.map_cons, List.map_cons, List.length_map, ih]

/-- C9: for `k` sweep options whose candidate sequences (where present)
have lengths `n1 … nk`, the expander produces exactly `n1 * … * nk`
parameter combinations (absent-sequence options are filtered out); when
every option's sequence is absent, it produces exactly one combination,
the empty one, so a baseline run always executes. -/
theorem C9_product_count_and_baseline
    (kwargs : List (String × String × Option (List PValue))) :
    (sweepValueSets kwargs).length =
      ((kwargs.filterMap (fun kv => kv.2.2)).map List.length).prod ∧
    ((∀ kv ∈ kwargs, kv.2.2 = none) → sweepValueSets kwargs = [[]]) := by
  constructor
  · rw [sweepValueSets, length_cartProduct, map_length_sweepValues]
  · intro hall
    rw [sweepValueSets, filterMap_eq_nil_of_none _ kwargs
      (fun kv hkv => by rw [hall kv hkv]; rfl)]
    rfl

/-- A plain display-only value for concrete instances: no diagnostic
capability, empty metric table. -/
def plainPV (s : String) : PValue := ⟨s, false, fun _ => []⟩

/-- C1 counterexample: with the per-combination value bound to key `a`
and the stored extra kwargs binding the same key,
`total_args.update(self._extra_args)` leaves the *extra* value in the
mapping passed to the algorithm — the per-combination value is
overridden, contradicting the claimed precedence. -/
theorem C1_counterexample_extra_args_win :
    dget (runOneExperimentArgs [("a", plainPV "fixed")]
        (pyDict [("a", plainPV "combo")])) "a" = some (plainPV "fixed") ∧
    ¬(dget (runOneExperimentArgs [("a", plainPV "fixed")]
        (pyDict [("a", plainPV "combo")])) "a" = some (plainPV "combo")) := by
  constructor
  · rfl
  · intro h
    have h1 : plainPV "fixed" = plainPV "combo" :=
      Option.some.inj ((show dget (runOneExperimentArgs [("a", plainPV "fixed")]
        (pyDict [("a", plainPV "combo")])) "a" = some (plainPV "fixed") from rfl).symm.trans h)
    have h2 : "fixed" = "combo" := congrArg PValue.shortName h1
    exact absurd h2 (by decide)

/-- C1 amended: on key collision the merged mapping passed to the
algorithm maps the key to the globally fixed extra argument's value —
the stored kwargs take the *higher* precedence, overriding the
per-combination value. -/
theorem C1_amended_extra_args_override (extra total : List (String × PValue))
    (k : String) (v : PValue)
    (hnd : (keys extra).Nodup) (hk : dget extra k = some v) :
    dget (runOneExperimentArgs extra total) k = some v := by
  have hlen : 0 < extra.length := by
    cases extra with
    | nil => rw [dget] at hk; exact Option.noConfusion hk
    | cons p e => simp
  rw [runOneExperimentArgs, if_pos hlen]
  exact dget_dunion_nodup _ _ _ _ hnd hk

/-- A recorder as a previous combination's run leaves it: a stale logged
argument, a cached zero-iteration record, a non-empty time log. -/
def staleRecorder : Recorder :=
  { iteration_list := [5], generate_curves := true,
    parameter_description_dict := [],
    current_logged_algorithm_args := [("stale", plainPV "old")],
    raw_run_stats := [], fitness_curves := [],
    zero_curve_stat := some [("Iteration", RVal.int 0)],
    iteration_times := [7] }

/-- C7 counterexample: `_invoke_algorithm` clears only the elapsed-time
log.  After preparing the next run, the cached zero-iteration record is
still present and the logged-arguments buffer still holds the previous
combination's stale binding — the buffers are updated, not reset. -/
theorem C7_counterexample_buffers_not_reset :
    (invokePrep staleRecorder [("p", plainPV "new")]).iteration_times = [] ∧
    (invokePrep staleRecorder [("p", plainPV "new")]).zero_curve_stat ≠ none ∧
    (invokePrep staleRecorder [("p", plainPV "new")]).current_logged_algorithm_args ≠
      [("p", plainPV "new")] ∧
    dget (invokePrep staleRecorder [("p", plainPV "new")]).current_logged_algorithm_args
      "stale" = some (plainPV "old") := by
  refine ⟨rfl, ?_, ?_, rfl⟩
  · intro h
    exact Option.noConfusion h
  · intro h
    have h2 := congrArg List.length h
    exact absurd h2 (by decide)

/-- C7 amended: before each combination's invocation the per-iteration
elapsed-time log is cleared, but the logged-arguments buffer is only
updated in place — the new combination's bindings override colliding
keys while keys absent from it persist from earlier runs — and the
cached zero-iteration record is not reset; it is only replaced when the
new run's iteration-0 callback fires with curve generation enabled. -/
theorem C7_amended_only_times_cleared (rec : Recorder) (ta : List (String × PValue)) :
    (invokePrep rec ta).iteration_times = [] ∧
    (invokePrep rec ta).zero_curve_stat = rec.zero_curve_stat ∧
    (∀ (k : String) (v : PValue), (keys ta).Nodup → dget ta k = some v →
      dget (invokePrep rec ta).current_logged_algorithm_args k = some v) ∧
    (∀ k : String, k ∉ keys ta →
      dget (invokePrep rec ta).current_logged_algorithm_args k =
        dget rec.current_logged_algorithm_args k) ∧
    (∀ (rec2 : Recorder) (inp : CallbackInput), inp.iteration = 0 → inp.done = false →
      inp.curve = none → rec2.generate_curves = true →
      ∃ r : Recorder, save_state rec2 inp = some (r, true) ∧
        r.zero_curve_stat = some (mkCurveStat 0 inp.fitness inp.t
          (currentIterationStats rec2.parameter_description_dict
            rec2.current_logged_algorithm_args inp.user_data))) := by
  refine ⟨rfl, rfl, ?_, ?_, ?_⟩
  · intro k v hnd hk
    exact dget_dunion_nodup _ _ _ _ hnd hk
  · intro k hk
    exact dget_dunion_not_mem _ _ _ hk
  · intro rec2 inp h0 hd h4 hg
    refine ⟨_, save_state_zero rec2 inp h0 hd h4, ?_⟩
    dsimp only
    rw [if_pos hg]

/-! ## Concrete witnesses -/

/-- Witness for C1 (amended): a stored extra kwarg survives the merge. -/
theorem C1_witness :
    dget (runOneExperimentArgs [("a", plainPV "x")] []) "a" = some (plainPV "x") :=
  C1_amended_extra_args_override [("a", plainPV "x")] [] "a" (plainPV "x")
    (by decide) rfl

/-- Witness for C2: checkpoints `[5, 10]`, terminal iteration 7, empty
argument/auxiliary context. -/
theorem C2_witness :
    ∃ fin : Recorder, sweepRun [5, 10] false [] [] [] (fun _ => 0) (fun _ => 0)
        (fun _ => 0) 7 none = some fin ∧
      ∀ c ∈ ([5, 10] : List Nat), fin.raw_run_stats.countP
        (fun r => decide (recIter r = some (c : Int))) = 1 :=
  C2_every_checkpoint_exactly_one_record [5, 10] false [] [] [] (fun _ => 0)
    (fun _ => 0) (fun _ => 0) 7 (by decide) (by omega) ⟨10, by decide, by omega⟩
    (by decide) (fun t => by simp [additionalInfo, pyDict, dunion, keys])

/-- Witness for C3 with empty argument/auxiliary context. -/
theorem C3_witness :
    (∀ (rec : Recorder) (inp : CallbackInput),
      0 < inp.iteration → inp.iteration ∈ rec.iteration_list → inp.done = false →
      inp.curve = none →
      (rec.iteration_list.filter (fun i => decide (inp.iteration ≤ i))).min? =
          some inp.iteration ∧
      save_state rec inp = some ({ rec with
        iteration_times := rec.iteration_times ++ [inp.t],
        raw_run_stats := rec.raw_run_stats ++
          [mkRunStat inp.iteration inp.fitness inp.state inp.t
            (currentIterationStats rec.parameter_description_dict
              rec.current_logged_algorithm_args inp.user_data)
            (additionalInfo rec.current_logged_algorithm_args inp.t)] }, true)) ∧
    (∀ (rec : Recorder) (inp : CallbackInput),
      0 < inp.iteration → inp.done = true → inp.curve = none →
      save_state rec inp = some ({ rec with
        iteration_times := rec.iteration_times ++ [inp.t],
        raw_run_stats := rec.raw_run_stats ++
          (rec.iteration_list.filter (fun i => decide (inp.iteration ≤ i))).map
            (fun i => mkRunStat i inp.fitness inp.state inp.t
              (currentIterationStats rec.parameter_description_dict
                rec.current_logged_algorithm_args inp.user_data)
              (additionalInfo rec.current_logged_algorithm_args inp.t)) }, false)) ∧
    (∃ fin : Recorder,
      sweepRun [5, 10] false [] [] [] (fun _ => 0) (fun j => (j : Int))
        (fun j => j) 7 none = some fin ∧
      fin.raw_run_stats =
        [mkRunStat 0 ((fun j => (j : Int)) 0) ((fun _ => (0 : Int)) 0) ((fun j => j) 0)
          (currentIterationStats [] [] []) (additionalInfo [] ((fun j => j) 0)),
         mkRunStat 5 ((fun j => (j : Int)) 5) ((fun _ => (0 : Int)) 5) ((fun j => j) 5)
          (currentIterationStats [] [] []) (additionalInfo [] ((fun j => j) 5)),
         mkRunStat 10 ((fun j => (j : Int)) 7) ((fun _ => (0 : Int)) 7) ((fun j => j) 7)
          (currentIterationStats [] [] []) (additionalInfo [] ((fun j => j) 7))]) :=
  C3_done_fanout_remaining_checkpoints false [] [] [] (fun _ => 0)
    (fun j => (j : Int)) (fun j => j)

/-- Witness for C4: checkpoint set `[3]`, two supplied fitness values. -/
theorem C4_witness :
    ∃ fin : Recorder, sweepRun [3] true [] [] [] (fun _ => 0) (fun _ => 0)
        (fun i => i) 2 (some [7, 9]) = some fin ∧
      fin.fitness_curves =
        some (mkCurveStat 0 ((fun _ => (0 : Int)) 0) ((fun (i : Nat) => i) 0)
            (currentIterationStats [] [] [])) ::
          ((List.range' 1 2).zip [7, 9]).map
            (fun p => some (mkCurveStat p.1 p.2 ((fun (i : Nat) => i) p.1)
              (currentIterationStats [] [] []))) ∧
      fin.fitness_curves.length = 2 + 1 ∧
      fin.fitness_curves.map (fun o => o.bind recIter) =
        (List.range (2 + 1)).map (fun (i : Nat) => some ((i : Int))) :=
  C4_curve_has_n_plus_one_increasing_rows [3] [] [] [] (fun _ => 0) (fun _ => 0)
    (fun i => i) 2 [7, 9] (by omega) (by decide) (by decide)

/-- Witness for C5: a parameter displayed as `Seed` and an auxiliary
pair named `SEED` colliding case-insensitively. -/
theorem C5_witness :
    (∀ x : String,
      dget (currentIterationStats [("seed", "Seed")] [("seed", plainPV "42")]
        [("SEED", plainPV "aux")]) x =
      dget (dunion (paramStats [("seed", "Seed")] [("seed", plainPV "42")])
        (pyDict ((filteredUserData [("seed", "Seed")] [("seed", plainPV "42")]
          [("SEED", plainPV "aux")]).map (fun p => (p.1, RVal.pval p.2))))) x) ∧
    (∀ p ∈ [("SEED", plainPV "aux")],
      (((paramStats [("seed", "Seed")] [("seed", plainPV "42")]).map
        (fun q => q.1.toLower)).contains p.1.toLower) = true →
      dget (currentIterationStats [("seed", "Seed")] [("seed", plainPV "42")]
        [("SEED", plainPV "aux")]) p.1 =
      dget (paramStats [("seed", "Seed")] [("seed", plainPV "42")]) p.1) ∧
    (∀ (x : String) (v : RVal),
      dget (additionalInfo [("seed", plainPV "42")] 0) x = some v →
      ∀ (key : Nat) (f s : Int) (tt : Nat),
        dget (mkRunStat key f s tt
          (currentIterationStats [("seed", "Seed")] [("seed", plainPV "42")]
            [("SEED", plainPV "aux")])
          (additionalInfo [("seed", plainPV "42")] 0)) x = some v) :=
  C5_display_record_merge_precedence [("seed", "Seed")] [("seed", plainPV "42")]
    [("SEED", plainPV "aux")] 0

/-- Witness for C6: iteration 3 against checkpoint set `[5]`. -/
theorem C6_witness :
    save_state (runRecorder [5] false [] []) ⟨3, 0, 0, [], false, none, 4⟩ =
      some ({ runRecorder [5] false [] [] with iteration_times := [4] }, true) :=
  C6_noncheckpoint_call_only_logs_time (runRecorder [5] false [] [])
    ⟨3, 0, 0, [], false, none, 4⟩ (by decide) (by decide) rfl

/-- Witness for C7 (amended) at the stale recorder. -/
theorem C7_witness :
    (invokePrep staleRecorder [("p", plainPV "new")]).iteration_times = [] ∧
    (invokePrep staleRecorder [("p", plainPV "new")]).zero_curve_stat =
      staleRecorder.zero_curve_stat ∧
    (∀ (k : String) (v : PValue), (keys [("p", plainPV "new")]).Nodup →
      dget [("p", plainPV "new")] k = some v →
      dget (invokePrep staleRecorder
        [("p", plainPV "new")]).current_logged_algorithm_args k = some v) ∧
    (∀ k : String, k ∉ keys [("p", plainPV "new")] →
      dget (invokePrep staleRecorder
        [("p", plainPV "new")]).current_logged_algorithm_args k =
      dget staleRecorder.current_logged_algorithm_args k) ∧
    (∀ (rec2 : Recorder) (inp : CallbackInput), inp.iteration = 0 → inp.done = false →
      inp.curve = none → rec2.generate_curves = true →
      ∃ r : Recorder, save_state rec2 inp = some (r, true) ∧
        r.zero_curve_stat = some (mkCurveStat 0 inp.fitness inp.t
          (currentIterationStats rec2.parameter_description_dict
            rec2.current_logged_algorithm_args inp.user_data))) :=
  C7_amended_only_times_cleared staleRecorder [("p", plainPV "new")]

/-- Witness for C8: checkpoint set `[2]`, two supplied fitness values,
terminal call repeating iteration 2 at the later time 99. -/
theorem C8_witness :
    (∀ (rec r : Recorder) (inp : CallbackInput) (b : Bool),
      save_state rec inp = some (r, b) →
      r.iteration_times = rec.iteration_times ++ [inp.t]) ∧
    (∃ fin : Recorder,
      runCalls (runRecorder [2] true [] [])
        (zeroCall [] (fun _ => 0) (fun _ => 0) (fun i => i) ::
          (perIterCalls 1 2 [] (fun _ => 0) (fun _ => 0) (fun i => i) ++
            [⟨2, 0, 0, [], true, some [7, 9], 99⟩])) = some fin ∧
      fin.fitness_curves.map (fun o => o.bind (fun d => dget d "Time")) =
        (List.range (2 + 1)).map
          (fun (i : Nat) => some (RVal.int (((fun (i : Nat) => i) i : Int)))) ∧
      fin.iteration_times = (List.range' 0 (2 + 1)).map (fun i => i) ++ [99]) :=
  C8_curve_times_from_per_iteration_log [2] [] [] [] (fun _ => 0) (fun _ => 0)
    (fun i => i) 0 0 99 2 [7, 9] (by omega) (by decide) (by decide)

/-- Witness for C9: two options with candidates (2 and 1), one absent. -/
theorem C9_witness :
    (sweepValueSets [("a", "A", some [plainPV "x", plainPV "y"]),
        ("b", "B", none), ("c", "C", some [plainPV "z"])]).length =
      (([("a", "A", some [plainPV "x", plainPV "y"]),
        ("b", "B", none), ("c", "C", some [plainPV "z"])].filterMap
          (fun kv => kv.2.2)).map List.length).prod ∧
    ((∀ kv ∈ [("a", "A", some [plainPV "x", plainPV "y"]),
        ("b", "B", none), ("c", "C", some [plainPV "z"])], kv.2.2 = none) →
      sweepValueSets [("a", "A", some [plainPV "x", plainPV "y"]),
        ("b", "B", none), ("c", "C", some [plainPV "z"])] = [[]]) :=
  C9_product_count_and_baseline [("a", "A", some [plainPV "x", plainPV "y"]),
    ("b", "B", none), ("c", "C", some [plainPV "z"])]

/-- Witness for C10: a `done = false` call at the checkpoint 5. -/
theorem C10_witness :
    (fanOut (runRecorder [5] false [] []).iteration_list
      (⟨5, 0, 0, [], false, none, 1⟩ : CallbackInput).iteration
      (⟨5, 0, 0, [], false, none, 1⟩ : CallbackInput).done).isSome = true :=
  C10_notdone_min_never_empty (runRecorder [5] false [] [])
    ⟨5, 0, 0, [], false, none, 1⟩ rfl (by decide)
